import Mathlib

/-!
# reaper: identifying stale files for deletion

A shallow embedding of package `reaper` (`lib.go`) and a verification of its
predicates, its walk callback and its session operations.

Conventions of the embedding

* Go's `error` is `Option GoError`, `nil` being `none`.
* A run-time panic is the `.error` side of `Except Fault`.
* `os.FileInfo` is a record of the fields the package reads: the mode and the
  `syscall.Stat_t` fields `Uid`, `Gid`, `Dev` and `Atim`.
* What the package takes from its surroundings (glob matching of
  `path/filepath`, the wall clock, the directory operations of `os`) is the
  record `Env`, so every function below is a computable, pure function.
* Unsigned machine integers are `Nat`, `int` and `time.Duration` are `Int`; the
  package does no arithmetic on them, only comparisons and bit tests.
-/

namespace reaper

/-! ## Data model -/

/-- Error values the package handles or hands through. -/
inductive GoError where
  /-- The value `filepath.SkipDir`. -/
  | SkipDir
  /-- The package's own sentinel, `errors.New("reaper: stop")`. -/
  | errStop
  /-- The value `filepath.ErrBadPattern`. -/
  | ErrBadPattern
  /-- The value `io.EOF`. -/
  | EOF
  /-- An operating-system error, by its number. -/
  | errno (code : Nat)
  deriving DecidableEq, Repr

/-- A run-time panic, by its message. -/
structure Fault where
  msg : String
  deriving DecidableEq, Repr

instance instDecidableEqExcept {ε α : Type} [DecidableEq ε] [DecidableEq α] :
    DecidableEq (Except ε α)
  | .ok a, .ok b =>
    if h : a = b then isTrue (congrArg Except.ok h)
    else isFalse fun h2 => h (Except.ok.inj h2)
  | .error a, .error b =>
    if h : a = b then isTrue (congrArg Except.error h)
    else isFalse fun h2 => h (Except.error.inj h2)
  | .ok _, .error _ => isFalse fun h => Except.noConfusion h
  | .error _, .ok _ => isFalse fun h => Except.noConfusion h

/-- The type `os.FileMode`, a 32 bit unsigned integer. -/
abbrev FileMode := Nat

/-- The type `time.Time`, as nanoseconds since the epoch. -/
abbrev Time := Int

/-- The type `time.Duration`, in nanoseconds. -/
abbrev Duration := Int

def ModeDir : FileMode := 2 ^ 31
def ModeSymlink : FileMode := 2 ^ 27
def ModeDevice : FileMode := 2 ^ 26
def ModeNamedPipe : FileMode := 2 ^ 25
def ModeSocket : FileMode := 2 ^ 24
def ModeCharDevice : FileMode := 2 ^ 21
def ModeIrregular : FileMode := 2 ^ 19

/-- The mask `os.ModeType` of the type bits. -/
def ModeType : FileMode :=
  ModeDir ||| ModeSymlink ||| ModeNamedPipe ||| ModeSocket ||| ModeDevice |||
    ModeCharDevice ||| ModeIrregular

/-- The mask `os.ModePerm` of the permission bits. -/
def ModePerm : FileMode := 0o777

/-- The data of an `os.FileInfo` that the package reads. -/
structure FileInfo where
  name : String
  size : Int
  mode : FileMode
  /-- Field `Uid` of `syscall.Stat_t`. -/
  statUid : Nat
  /-- Field `Gid` of `syscall.Stat_t`. -/
  statGid : Nat
  /-- Field `Dev` of `syscall.Stat_t`. -/
  statDev : Nat
  /-- Field `Atim` of `syscall.Stat_t`, which `atime.Get` returns. -/
  statAtim : Time
  deriving DecidableEq, Repr

namespace FileInfo

/-- The method `Mode().IsDir()`. -/
def IsDir (fi : FileInfo) : Bool := fi.mode &&& ModeDir != 0

/-- The method `Mode().IsRegular()`. -/
def IsRegular (fi : FileInfo) : Bool := fi.mode &&& ModeType == 0

/-- The method `Mode().Perm()`. -/
def Perm (fi : FileInfo) : FileMode := fi.mode &&& ModePerm

end FileInfo

/-- Entry models a file eligible for deletion. -/
structure Entry where
  info : FileInfo
  /-- Path is the file's full path relative to the search root. -/
  Path : String
  deriving DecidableEq, Repr

/-- The function `uid`: the 32 bit unsigned `Uid` converted to a 64 bit `int`. -/
def uid (fi : FileInfo) : Int := (fi.statUid : Int)

/-- The function `gid`: the 32 bit unsigned `Gid` converted to a 64 bit `int`. -/
def gid (fi : FileInfo) : Int := (fi.statGid : Int)

def onSameDevice (a b : FileInfo) : Bool := a.statDev == b.statDev

def isSymlink (a : FileInfo) : Bool := a.mode &&& ModeSymlink != 0

/-- The surroundings of the package at the moment of a call. -/
structure Env where
  /-- The function `filepath.Match pattern name`, with its two results. -/
  fmatch : String → String → Bool × Option GoError
  /-- The function `time.Since`. -/
  timeSince : Time → Duration
  /-- The function `os.Open`: a handle or an error. -/
  osOpen : String → Except GoError Nat
  /-- The method `Readdir n` of an open file, with its two results. -/
  readdir : Nat → Nat → List FileInfo × Option GoError

/-! ## Predicates -/

def isEmpty (env : Env) (path : String) : Bool :=
  match env.osOpen path with
  | .error _ => false
  | .ok f =>
    let (fi, _) := env.readdir f 1
    fi.length == 0

/-- The function `isProtected`; the panic on a bad pattern is the fault. -/
def isProtected (fmatch : String → String → Bool × Option GoError)
    (path : String) : List String → Except Fault Bool
  | [] => .ok false
  | glob :: globs =>
    match fmatch glob path with
    | (true, _) => .ok true
    | (false, some _) => .error ⟨"could not determine protection " ++ glob⟩
    | (false, none) => isProtected fmatch path globs

def S_IWOTH : FileMode := 0o002
def S_IWUSR : FileMode := 0o200
def S_IWGRP : FileMode := 0o020

/-- The function `isWritable`; `groups` is the lookup of the `map[int]bool`. -/
def isWritable (f : FileInfo) (euid egid : Int) (groups : Int → Bool)
    (perm : FileMode) : Bool :=
  if euid == 0 then true
  else if perm &&& S_IWOTH != 0 then true
  else if (perm &&& S_IWUSR != 0) && uid f == euid then true
  else if perm &&& S_IWGRP != 0 then
    if gid f == egid then true
    else if groups (gid f) then true
    else false
  else false

/-- The function `hasExpired`; a `nil` clock is `none`. -/
def hasExpired (env : Env) (f : FileInfo) (expiry : Duration)
    (since : Option (Time → Duration)) : Bool :=
  let since := match since with
    | none => env.timeSince
    | some s => s
  decide (since f.statAtim > expiry)

/-! ## The session -/

/-- Reaper is the session: its configuration, the state of its two channels
(`stop` and `results` are observed only as open or closed), the current entry
and the terminal error. -/
structure Reaper where
  root : FileInfo
  euid : Int
  egid : Int
  expungeTTL : Duration
  expungeIrregular : Bool
  protect : List String
  groups : Int → Bool
  force : Bool
  /-- Whether channel `stop` has been closed. -/
  stopClosed : Bool
  /-- Whether channel `results` has been closed. -/
  resultsClosed : Bool
  cur : Option Entry
  err : Option GoError

/-- ExpungeAfter identifies files for deletion whose access time surpasses d. -/
def ExpungeAfter (d : Duration) (r : Reaper) : Reaper := { r with expungeTTL := d }

/-- ExpungeIrregular allows irregular files to be deleted. -/
def ExpungeIrregular (r : Reaper) : Reaper := { r with expungeIrregular := true }

/-- Protect applies a blacklist pattern to the Reaper. -/
def Protect (globs : List String) (r : Reaper) : Reaper :=
  { r with protect := r.protect ++ globs }

/-- Force instructs the reaper to ignore permissions. -/
def Force (r : Reaper) : Reaper := { r with force := true }

def Reaper.Err (r : Reaper) : Option GoError := r.err

/-- The method `Stop`: closing a channel that is closed already panics. -/
def Reaper.Stop (r : Reaper) : Except Fault Reaper :=
  if r.stopClosed then .error ⟨"close of closed channel"⟩
  else .ok { r with stopClosed := true }

/-- The communication with which the `select` of `Scan` proceeds. -/
inductive ScanComm where
  /-- A value sent by the producer is received from `results`. -/
  | recv (res : Entry)
  /-- The receive from `results` proceeds because the channel is closed. -/
  | recvClosed
  /-- The receive from `stop` proceeds because the channel is closed. -/
  | stop
  deriving DecidableEq, Repr

/-- The method `Scan`, given the communication its `select` proceeds with. -/
def Reaper.Scan (r : Reaper) : ScanComm → Reaper × Bool
  | .recv res => ({ r with cur := some res }, true)
  | .recvClosed => ({ r with cur := none }, false)
  | .stop => (r, false)

def Reaper.File (r : Reaper) : Option Entry := r.cur

def Reaper.isProtected (r : Reaper) (env : Env) (path : String) : Except Fault Bool :=
  reaper.isProtected env.fmatch path r.protect

def Reaper.isWritable (r : Reaper) (f : FileInfo) : Bool :=
  reaper.isWritable f r.euid r.egid r.groups f.Perm

def Reaper.onSameDevice (r : Reaper) (info : FileInfo) : Bool :=
  reaper.onSameDevice r.root info

/-- The communication with which the `select` of `accept` proceeds. -/
inductive AcceptComm where
  /-- The entry is sent on `results`: the consumer receives it. -/
  | send
  /-- The receive from `stop` proceeds because the channel is closed. -/
  | stop
  deriving DecidableEq, Repr

/-- What one call of the walk callback does: the entry it hands to the
consumer, if any, and the error it returns. -/
structure Visit where
  emitted : Option Entry
  ret : Option GoError
  deriving DecidableEq, Repr

/-- The method `accept`, given the communication its `select` proceeds with. -/
def accept (sel : AcceptComm) (fi : FileInfo) (path : String) : Visit :=
  match sel with
  | .send => ⟨some ⟨fi, path⟩, none⟩
  | .stop => ⟨none, some .errStop⟩

/-- The method `visitDir`; it does not read its argument `err`. -/
def Reaper.visitDir (r : Reaper) (env : Env) (sel : AcceptComm) (path : String)
    (info : FileInfo) (_err : Option GoError) : Except Fault Visit :=
  match r.isProtected env path with
  | .error e => .error e
  | .ok true => .ok ⟨none, some .SkipDir⟩
  | .ok false =>
    if !r.onSameDevice info then .ok ⟨none, some .SkipDir⟩
    else if !(r.isWritable info || r.force) then .ok ⟨none, none⟩
    else if isEmpty env path && hasExpired env info r.expungeTTL none then
      .ok (accept sel info path)
    else .ok ⟨none, none⟩

/-- The method `visitFile`; it does not read its argument `err`. -/
def Reaper.visitFile (r : Reaper) (env : Env) (sel : AcceptComm) (path : String)
    (info : FileInfo) (_err : Option GoError) : Except Fault Visit :=
  match r.isProtected env path with
  | .error e => .error e
  | .ok true => .ok ⟨none, none⟩
  | .ok false =>
    if !r.onSameDevice info then .ok ⟨none, none⟩
    else if !(info.IsRegular || r.expungeIrregular) then .ok ⟨none, none⟩
    else if !(r.isWritable info || r.force) then .ok ⟨none, none⟩
    else if hasExpired env info r.expungeTTL none then .ok (accept sel info path)
    else .ok ⟨none, none⟩

/-- The method `walk`, the callback of `filepath.Walk`. The tree walk passes a
nil `info` when it could not stat the path; calling `IsDir` on it panics. -/
def Reaper.walk (r : Reaper) (env : Env) (sel : AcceptComm) (path : String)
    (info : Option FileInfo) (err : Option GoError) : Except Fault Visit :=
  if r.stopClosed then .ok ⟨none, some .errStop⟩
  else
    match info with
    | none => .error ⟨"invalid memory address or nil pointer dereference"⟩
    | some info =>
      if info.IsDir then r.visitDir env sel path info err
      else r.visitFile env sel path info err

/-- The entry a call of the callback hands to the consumer; none on a fault. -/
def emission : Except Fault Visit → Option Entry
  | .ok v => v.emitted
  | .error _ => none

/-! ## The tree walk of `path/filepath` and the producer -/

/-- A file tree as `filepath.Walk` reads it: the name of the entry, the result
of `os.Lstat` on it, and, used when the entry is a directory, the error of
`readDirNames` and the children in the sorted order of their names. -/
inductive Node where
  | node (name : String) (lstat : Except GoError FileInfo)
      (readErr : Option GoError) (children : List Node)

/-- The elements of a path, the text between its slashes. -/
def pathElems : List Char → List (List Char)
  | [] => [[]]
  | c :: cs =>
    if c == '/' then [] :: pathElems cs
    else
      match pathElems cs with
      | [] => [[c]]
      | e :: es => (c :: e) :: es

/-- The loop of `filepath.Clean` over the elements of a path, `kept` holding
the elements written so far, the last one first: an empty element and `.` are
dropped; `..` removes the element before it, is kept at the head of a path
that is not rooted, and is dropped at the root. -/
def cleanElems (rooted : Bool) : List (List Char) → List (List Char) → List (List Char)
  | kept, [] => kept.reverse
  | kept, e :: es =>
    if e == [] || e == ['.'] then cleanElems rooted kept es
    else if e == ['.', '.'] then
      match kept with
      | top :: below =>
        if top == ['.', '.'] then cleanElems rooted (e :: kept) es
        else cleanElems rooted below es
      | [] => if rooted then cleanElems rooted [] es else cleanElems rooted [e] es
    else cleanElems rooted (e :: kept) es

/-- The elements of a path written with a slash between them. -/
def joinElems : List (List Char) → List Char
  | [] => []
  | [e] => e
  | e :: es => e ++ '/' :: joinElems es

/-- The function `filepath.Clean`, with the slash as separator. -/
def Clean (path : String) : String :=
  match path.data with
  | [] => "."
  | c :: cs =>
    let rooted := c == '/'
    let out := joinElems (cleanElems rooted [] (pathElems (c :: cs)))
    if rooted then String.mk ('/' :: out)
    else if out == [] then "." else String.mk out

/-- The function `filepath.Join` on two elements: the elements from the first
non-empty one on are joined by a slash and the result is cleaned. -/
def Join (path name : String) : String :=
  if path == "" then (if name == "" then "" else Clean name)
  else Clean (path ++ "/" ++ name)

/-- The type `filepath.WalkFunc`, with the state of the caller passed along;
a panic of the callback ends the walk. -/
abbrev WalkFunc (σ : Type) :=
  String → Option FileInfo → Option GoError → σ → Except Fault (Option GoError × σ)

mutual
/-- The unexported `filepath.walk`: the callback is called on the path, with
the error of reading the directory if there is one; the children are walked
only if there was no such error and the callback returned nil. -/
def walkNode {σ : Type} (fn : WalkFunc σ) (path : String) (info : FileInfo) :
    Node → σ → Except Fault (Option GoError × σ)
  | .node _ _ readErr children, s =>
    if !info.IsDir then fn path (some info) none s
    else
      match fn path (some info) readErr s with
      | .error f => .error f
      | .ok (err1, s1) =>
        if readErr.isSome || err1.isSome then .ok (err1, s1)
        else walkChildren fn path children s1
/-- The loop of `filepath.walk` over the names of a directory. -/
def walkChildren {σ : Type} (fn : WalkFunc σ) (path : String) :
    List Node → σ → Except Fault (Option GoError × σ)
  | [], s => .ok (none, s)
  | .node name (.error e) _ _ :: rest, s =>
    match fn (Join path name) none (some e) s with
    | .error f => .error f
    | .ok (err, s1) =>
      if err.isSome && err != some .SkipDir then .ok (err, s1)
      else walkChildren fn path rest s1
  | .node name (.ok fileInfo) readErr children :: rest, s =>
    match walkNode fn (Join path name) fileInfo (.node name (.ok fileInfo) readErr children) s with
    | .error f => .error f
    | .ok (err, s1) =>
      if err.isSome && (!fileInfo.IsDir || err != some .SkipDir) then .ok (err, s1)
      else walkChildren fn path rest s1
end

/-- The first statement of `filepath.Walk`: the callback is called with a nil
`info` if `os.Lstat` fails on the root, the root is walked otherwise. -/
def walkRoot {σ : Type} (fn : WalkFunc σ) (root : String) (tree : Node) (s : σ) :
    Except Fault (Option GoError × σ) :=
  match tree with
  | .node _ (.error e) _ _ => fn root none (some e) s
  | .node _ (.ok info) _ _ => walkNode fn root info tree s

/-- The function `filepath.Walk` on the tree found at `root`: the result
`filepath.SkipDir` of the walk of the root becomes nil. -/
def Walk {σ : Type} (fn : WalkFunc σ) (root : String) (tree : Node) (s : σ) :
    Except Fault (Option GoError × σ) :=
  match walkRoot fn root tree s with
  | .error f => .error f
  | .ok (err, s1) => if err == some .SkipDir then .ok (none, s1) else .ok (err, s1)

/-- What the producer meets at one call of the callback: the surroundings, the
state of channel `stop` when `walk` polls it, and the communication `accept`
proceeds with if it is reached. -/
structure Moment where
  env : Env
  stopClosed : Bool
  sel : AcceptComm

/-- The callback `r.walk` as a `WalkFunc`: the state counts the calls and
collects the entries handed to the consumer. -/
def Reaper.walkFn (r : Reaper) (sched : Nat → Moment) : WalkFunc (Nat × List Entry) :=
  fun path info err s =>
    let m := sched s.1
    match Reaper.walk { r with stopClosed := m.stopClosed } m.env m.sel path info err with
    | .error f => .error f
    | .ok v => .ok (v.ret, (s.1 + 1, s.2 ++ v.emitted.toList))

/-- The goroutine started by `New`: it walks the tree, records the error of the
walk unless it is nil or `errStop`, and closes `results`. The result is the
session at the end and the entries handed over; a panic ends the process. -/
def Reaper.produce (r : Reaper) (sched : Nat → Moment) (root : String) (tree : Node) :
    Except Fault (Reaper × List Entry) :=
  match Walk (r.walkFn sched) root tree (0, []) with
  | .error f => .error f
  | .ok (err, s) =>
    .ok ({ r with
            err := if err.isSome && err != some .errStop then err else r.err
            resultsClosed := true }, s.2)

/-- The function `New` up to the start of the goroutine: the results of
`os.Lstat` on the root, of `os.Getgroups`, `os.Geteuid` and `os.Getegid`, and
the options. -/
def New (lstatRoot : Except GoError FileInfo) (getgroups : Except GoError (List Int))
    (geteuid getegid : Int) (opts : List (Reaper → Reaper)) : Except GoError Reaper :=
  match lstatRoot with
  | .error e => .error e
  | .ok info =>
    match getgroups with
    | .error e => .error e
    | .ok grps =>
      let r : Reaper :=
        { root := info, euid := geteuid, egid := getegid, expungeTTL := 0,
          expungeIrregular := false, protect := [],
          groups := fun id => grps.contains id, force := false,
          stopClosed := false, resultsClosed := false, cur := none, err := none }
      .ok (opts.foldl (fun r o => o r) r)

/-- The eligibility rule of `visitDir`: the directory is not protected, is on
the device of the root, is writable or the session is forced, is empty and has
expired. -/
def Reaper.dirEligible (r : Reaper) (env : Env) (path : String) (info : FileInfo) : Prop :=
  r.isProtected env path = .ok false ∧ r.onSameDevice info = true ∧
    (r.isWritable info = true ∨ r.force = true) ∧ isEmpty env path = true ∧
    hasExpired env info r.expungeTTL none = true

/-- The eligibility rule of `visitFile`: the path is not protected, the entry is
on the device of the root, is a regular file or irregular files are included,
is writable or the session is forced, and has expired. -/
def Reaper.fileEligible (r : Reaper) (env : Env) (path : String) (info : FileInfo) : Prop :=
  r.isProtected env path = .ok false ∧ r.onSameDevice info = true ∧
    (info.IsRegular = true ∨ r.expungeIrregular = true) ∧
    (r.isWritable info = true ∨ r.force = true) ∧
    hasExpired env info r.expungeTTL none = true

instance (r : Reaper) (env : Env) (path : String) (info : FileInfo) :
    Decidable (r.dirEligible env path info) := by
  unfold Reaper.dirEligible; infer_instance

instance (r : Reaper) (env : Env) (path : String) (info : FileInfo) :
    Decidable (r.fileEligible env path info) := by
  unfold Reaper.fileEligible; infer_instance

/-! ## Concrete sessions, used to evaluate the functions -/

/-- The function `filepath.Match` on two kinds of pattern: the pattern `[`, an
unterminated character class, is malformed for every name, and a pattern that
holds no metacharacter (star, question mark, bracket, backslash) matches the
name equal to it. -/
def matchLiteral (pattern name : String) : Bool × Option GoError :=
  if pattern == "[" then (false, some .ErrBadPattern) else (pattern == name, none)

/-- A directory of mode 0755 owned by user 1000, on device 6, last accessed at
time 0. -/
def sampleDir : FileInfo :=
  { name := "tmp", size := 4096, mode := ModeDir ||| 0o755, statUid := 1000,
    statGid := 1000, statDev := 6, statAtim := 0 }

/-- A regular file of mode 0644 owned by user 1000, on device 6, last accessed
at time 0. -/
def sampleFile : FileInfo :=
  { name := "old_content", size := 5, mode := 0o644, statUid := 1000,
    statGid := 1000, statDev := 6, statAtim := 0 }

/-- Surroundings in which ten seconds have passed since time 0, `tmp/empty` is
an empty directory (reading it ends with `io.EOF`), `tmp/broken` opens but
reading it fails with EIO, `tmp/full` has a child, and nothing else opens. -/
def sampleEnv : Env :=
  { fmatch := matchLiteral
    timeSince := fun t => 10 * 10 ^ 9 - t
    osOpen := fun path =>
      if path == "tmp/empty" then .ok 3
      else if path == "tmp/broken" then .ok 4
      else if path == "tmp/full" then .ok 5
      else .error (.errno 2)
    readdir := fun f _ =>
      if f == 3 then ([], some .EOF)
      else if f == 4 then ([], some (.errno 5))
      else if f == 5 then ([sampleFile], none)
      else ([], some (.errno 9)) }

/-- A session of user 1000 rooted at `sampleDir`, with an expiry of 5 s, as
`New` sets it up. -/
def sampleReaper : Reaper :=
  { root := sampleDir, euid := 1000, egid := 1000, expungeTTL := 5 * 10 ^ 9,
    expungeIrregular := false, protect := [], groups := fun _ => false,
    force := false, stopClosed := false, resultsClosed := false, cur := none,
    err := none }

/-- A directory like `sampleDir`, on device 7. -/
def otherDeviceDir : FileInfo := { sampleDir with statDev := 7 }

/-- A directory like `sampleDir`, of mode 0555. -/
def readOnlyDir : FileInfo := { sampleDir with mode := ModeDir ||| 0o555 }

/-- A directory of mode 0000 named `locked`. -/
def lockedDir : FileInfo := { sampleDir with name := "locked", mode := ModeDir }

/-- The tree of a root `tmp` that holds the one directory `locked`, whose
listing is refused with EACCES. -/
def lockedTree : Node :=
  .node "tmp" (.ok sampleDir) none
    [.node "locked" (.ok lockedDir) (some (.errno 13)) []]

/-- A run without cancellation: channel `stop` stays open and every entry
offered is received. -/
def calm : Nat → Moment := fun _ => ⟨sampleEnv, false, .send⟩

/-- A callback that returns nil and records the path and the error of each
call. -/
def recordCalls : WalkFunc (List (String × Option GoError)) :=
  fun path _ err s => .ok (none, s ++ [(path, err)])

/-- The tree of a root `tmp` with one child `gone` that was listed and then
removed: `os.Lstat` fails on it with ENOENT. -/
def vanishedTree : Node :=
  .node "tmp" (.ok sampleDir) none [.node "gone" (.error (.errno 2)) none []]

/-- A callback that returns nil and records, for each call, the path, whether
`info` is non-nil, and the error. -/
def recordArgs : WalkFunc (List (String × Bool × Option GoError)) :=
  fun path info err s => .ok (none, s ++ [(path, info.isSome, err)])

/-- The tree of the empty directory `tmp/empty`, taken as a scan root. -/
def emptyRootTree : Node := .node "empty" (.ok sampleDir) none []

/-! ## The walk without cancellation, and what it is expected to deliver -/

/-- A run without cancellation in surroundings that do not change. -/
def still (env : Env) : Nat → Moment := fun _ => ⟨env, false, .send⟩

/-- A directory whose subtree the scan leaves out: it is protected or it is
not on the device of the root. -/
def Reaper.prunes (r : Reaper) (env : Env) (path : String) (info : FileInfo) : Bool :=
  decide (r.isProtected env path = .ok true) || !r.onSameDevice info

/-- The eligibility rule of an entry by its kind: that of `visitDir` for a
directory, that of `visitFile` for anything else. -/
def Reaper.eligible (r : Reaper) (env : Env) (path : String) (info : FileInfo) : Bool :=
  if info.IsDir then decide (r.dirEligible env path info)
  else decide (r.fileEligible env path info)

mutual
/-- The depth-first pre-order listing of a tree, a directory before its
children and the children in their order, the first entry having the rank `k`
and each further entry the next rank; the surroundings at the rank of an entry
are those of `sched`. What lies below a protected or a cross-device directory
is left out; the directory itself is listed, and being protected or on another
device it is never eligible. An entry that cannot be stat'ed is listed without
metadata. -/
def Reaper.listing (r : Reaper) (sched : Nat → Moment) (path : String) (k : Nat) :
    Node → List (String × Option FileInfo)
  | .node _ (.ok info) _ children =>
    (path, some info) ::
      (if info.IsDir && !r.prunes (sched k).env path info then
        Reaper.listingList r sched path (k + 1) children
      else [])
  | .node _ (.error _) _ _ => [(path, none)]
/-- The pre-order listing of the children of the directory `path`, the first
entry having the rank `k`. -/
def Reaper.listingList (r : Reaper) (sched : Nat → Moment) (path : String) (k : Nat) :
    List Node → List (String × Option FileInfo)
  | [] => []
  | .node name l readErr children :: rest =>
    Reaper.listing r sched (Join path name) k (.node name l readErr children) ++
      Reaper.listingList r sched path
        (k + (Reaper.listing r sched (Join path name) k
          (.node name l readErr children)).length) rest
end

mutual
/-- The tree as far as it can be listed: the children of a directory whose
listing fails are left out. -/
def Node.listed : Node → Node
  | .node name l readErr children =>
    .node name l readErr (if readErr.isSome then [] else Node.listedList children)
/-- The trees as far as they can be listed. -/
def Node.listedList : List Node → List Node
  | [] => []
  | n :: rest => Node.listed n :: Node.listedList rest
end

/-- The eligible entries of a listing whose first entry has the rank `k`, in
the order of the listing, each entry judged in the surroundings of its rank. -/
def Reaper.chosen (r : Reaper) (sched : Nat → Moment) :
    Nat → List (String × Option FileInfo) → List Entry
  | _, [] => []
  | k, (path, some info) :: rest =>
    (if r.eligible (sched k).env path info then [⟨info, path⟩] else []) ++
      Reaper.chosen r sched (k + 1) rest
  | k, (_, none) :: rest => Reaper.chosen r sched (k + 1) rest

/-- The sequence of entries a scan of the tree is expected to deliver: the
pre-order listing filtered by the eligibility rule. -/
def Reaper.expected (r : Reaper) (sched : Nat → Moment) (root : String) (tree : Node) :
    List Entry :=
  r.chosen sched 0 (r.listing sched root 0 tree)

/-- Whether the visits of a listing whose first entry has the rank `k` go
undisturbed: at the rank of each entry the stop signal has not fired, the
entry has metadata, `isProtected` returns on its path, and, if the entry is
eligible, the consumer receives it. -/
def Reaper.undisturbed (r : Reaper) (sched : Nat → Moment) :
    Nat → List (String × Option FileInfo) → Bool
  | _, [] => true
  | _, (_, none) :: _ => false
  | k, (path, some info) :: rest =>
    !(sched k).stopClosed &&
      (match r.isProtected (sched k).env path with
        | .ok _ => true
        | .error _ => false) &&
      (!r.eligible (sched k).env path info || decide ((sched k).sel = .send)) &&
      Reaper.undisturbed r sched (k + 1) rest

/-! ## The end-to-end tree of the integration test -/

/-- The function `filepath.Match` on three kinds of pattern: the pattern `[`
is malformed for every name; a literal text followed by one final star, the
text holding no metacharacter, matches the names that start with the text and
go on without a slash; any other pattern holding no metacharacter matches the
name equal to it. -/
def matchStar (pattern name : String) : Bool × Option GoError :=
  if pattern == "[" then (false, some .ErrBadPattern)
  else
    match pattern.data.getLast? with
    | some '*' =>
      let text := pattern.data.dropLast
      (text.isPrefixOf name.data && !(name.data.drop text.length).contains '/', none)
    | _ => (pattern == name, none)

mutual
/-- The directories of a tree, each with its path and the entries its listing
yields. -/
def dirsOf (path : String) : Node → List (String × List FileInfo)
  | .node _ (.ok info) _ children =>
    if info.IsDir then (path, infosOf children) :: dirsOfList path children else []
  | .node _ (.error _) _ _ => []
/-- The directories below the directory `path`. -/
def dirsOfList (path : String) : List Node → List (String × List FileInfo)
  | [] => []
  | .node name l readErr children :: rest =>
    dirsOf (Join path name) (.node name l readErr children) ++ dirsOfList path rest
/-- The metadata of the children that can be stat'ed. -/
def infosOf : List Node → List FileInfo
  | [] => []
  | .node _ (.ok info) _ _ :: rest => info :: infosOf rest
  | .node _ (.error _) _ _ :: rest => infosOf rest
end

/-- The surroundings in which the file system is the tree found at `root` and
the time is `now`: `os.Open` succeeds on the directories of the tree, the
handle being the rank of the directory, and `Readdir n` on a handle yields the
first `n` entries of the directory, or `io.EOF` when there is none. -/
def envOf (now : Time) (root : String) (tree : Node) : Env :=
  { fmatch := matchStar
    timeSince := fun t => now - t
    osOpen := fun path =>
      match (dirsOf root tree).findIdx? (fun d => d.1 == path) with
      | some i => .ok i
      | none => .error (.errno 2)
    readdir := fun f n =>
      match (dirsOf root tree).get? f with
      | some (_, []) => ([], some .EOF)
      | some (_, kids) => (kids.take n, none)
      | none => ([], some (.errno 9)) }

/-- A directory of the end-to-end tree: mode 0755, user 1000, device 6. -/
def e2eDir (name : String) (atim : Time) : FileInfo :=
  { name := name, size := 4096, mode := ModeDir ||| 0o755, statUid := 1000,
    statGid := 1000, statDev := 6, statAtim := atim }

/-- A file of the end-to-end tree: regular, mode 0644, user 1000, device 6. -/
def e2eFile (name : String) (atim : Time) : FileInfo :=
  { name := name, size := 5, mode := 0o644, statUid := 1000,
    statGid := 1000, statDev := 6, statAtim := atim }

/-- The tree of the integration test, the names of each directory in sorted
order; the time being 10 s, the old entries were last accessed at 0 s and the
new ones at 10 s. -/
def e2eTree : Node :=
  .node "root" (.ok (e2eDir "root" 0)) none
    [ .node "new_empty" (.ok (e2eDir "new_empty" (10 * 10 ^ 9))) none [],
      .node "new_with_young_content"
        (.ok (e2eDir "new_with_young_content" (10 * 10 ^ 9))) none
        [ .node "new_content" (.ok (e2eFile "new_content" (10 * 10 ^ 9))) none [] ],
      .node "old_empty" (.ok (e2eDir "old_empty" 0)) none [],
      .node "old_with_young_content" (.ok (e2eDir "old_with_young_content" 0)) none
        [ .node "new_content" (.ok (e2eFile "new_content" (10 * 10 ^ 9))) none [],
          .node "old_content" (.ok (e2eFile "old_content" 0)) none [] ] ]

/-- The session of the integration test: user 1000, with `ExpungeAfter` 5 s,
rooted at the root of the tree `e2eTree`. -/
def e2eReaper : Reaper :=
  ExpungeAfter (5 * 10 ^ 9)
    { root := e2eDir "root" 0, euid := 1000, egid := 1000, expungeTTL := 0,
      expungeIrregular := false, protect := [], groups := fun _ => false,
      force := false, stopClosed := false, resultsClosed := false, cur := none,
      err := none }

/-- The tree of a root `tmp` that holds the directory `locked`, whose listing
is refused with EACCES; the directory holds the old file `old_content`. -/
def lockedFullTree : Node :=
  .node "tmp" (.ok sampleDir) none
    [.node "locked" (.ok lockedDir) (some (.errno 13))
      [.node "old_content" (.ok sampleFile) none []]]

/-- A run in unchanging surroundings in which the stop signal is found fired
from the call of rank `k` on. -/
def stopFrom (k : Nat) (env : Env) : Nat → Moment :=
  fun i => ⟨env, decide (k ≤ i), .send⟩

/-! ## The read permission of the operating system -/

/-- The check the operating system makes when a directory is opened for
reading, by the access classes of POSIX: the superuser may read; the owner
needs the bit 0400; otherwise a member of the group needs the bit 0040;
otherwise the bit 0004 is needed. -/
def mayRead (euid egid : Int) (groups : Int → Bool) (info : FileInfo) : Bool :=
  if euid == 0 then true
  else if uid info == euid then info.mode &&& 0o400 != 0
  else if gid info == egid || groups (gid info) then info.mode &&& 0o040 != 0
  else info.mode &&& 0o004 != 0

/-- Surroundings like `sampleEnv` in which the empty directory `tmp/empty` has
the metadata `info` and is opened by the caller of the session `r`: `os.Open`
refuses with EACCES when `mayRead` fails. -/
def guardedEnv (r : Reaper) (info : FileInfo) : Env :=
  { sampleEnv with
    osOpen := fun path =>
      if path == "tmp/empty" then
        (if mayRead r.euid r.egid r.groups info then .ok 3 else .error (.errno 13))
      else sampleEnv.osOpen path }

/-- A directory like `sampleDir`, of mode 0000. -/
def noPermDir : FileInfo := { sampleDir with mode := sampleDir.mode ^^^ 0o755 }

/-- A run without cancellation on the end-to-end tree under the root `tmp` in
which the clock ticks: at the call of rank `k` the time is `k - 1` seconds. -/
def ticking : Nat → Moment :=
  fun k => ⟨envOf (((k : Int) - 1) * 10 ^ 9) "tmp" e2eTree, false, .send⟩

/-! ## Bit tests -/

theorem land_two_pow_ne_zero (n k : Nat) : (n &&& 2 ^ k != 0) = n.testBit k := by
  rw [Nat.and_two_pow]
  cases h : n.testBit k <;> simp

theorem land_S_IWOTH (perm : FileMode) : (perm &&& S_IWOTH != 0) = perm.testBit 1 :=
  land_two_pow_ne_zero perm 1

theorem land_S_IWUSR (perm : FileMode) : (perm &&& S_IWUSR != 0) = perm.testBit 7 :=
  land_two_pow_ne_zero perm 7

theorem land_S_IWGRP (perm : FileMode) : (perm &&& S_IWGRP != 0) = perm.testBit 4 :=
  land_two_pow_ne_zero perm 4

/-! ## The predicates -/

/-- C1: `isWritable` is true exactly when the effective user is the superuser,
or the other-write bit 0002 (bit 1) is set, or the user-write bit 0200 (bit 7)
is set and the owner is the effective user, or the group-write bit 0020 (bit 4)
is set and the group is the effective group or one of the supplementary
groups; in every other case it is false. -/
theorem isWritable_iff (f : FileInfo) (euid egid : Int) (groups : Int → Bool)
    (perm : FileMode) :
    isWritable f euid egid groups perm =
      decide (euid = 0 ∨ perm.testBit 1 = true ∨
        (perm.testBit 7 = true ∧ uid f = euid) ∨
        (perm.testBit 4 = true ∧ (gid f = egid ∨ groups (gid f) = true))) := by
  unfold isWritable
  rw [land_S_IWOTH, land_S_IWUSR, land_S_IWGRP]
  by_cases h0 : euid = 0
  · simp [h0]
  · cases h1 : perm.testBit 1
    · cases h7 : perm.testBit 7 <;> cases h4 : perm.testBit 4 <;>
        by_cases hu : uid f = euid <;> by_cases hg : gid f = egid <;>
        cases hs : groups (gid f) <;> simp [h0, hu, hg, hs]
    · simp [h0]

/-- C2: with an injected clock `since`, `hasExpired` is true exactly when
`since` of the access time is strictly greater than the expiry; it is false
when the elapsed time equals the expiry, false for 30 s elapsed and an expiry
of 60 s, true for 90 s elapsed and an expiry of 60 s. -/
theorem hasExpired_iff (env : Env) (f : FileInfo) (ttl : Duration)
    (since : Time → Duration) (now : Time) :
    (hasExpired env f ttl (some since) = true ↔ since f.statAtim > ttl) ∧
    hasExpired env f (since f.statAtim) (some since) = false ∧
    hasExpired env { f with statAtim := now - 30 * 10 ^ 9 } (60 * 10 ^ 9)
      (some (fun t => now - t)) = false ∧
    hasExpired env { f with statAtim := now - 90 * 10 ^ 9 } (60 * 10 ^ 9)
      (some (fun t => now - t)) = true := by
  refine ⟨?_, ?_, ?_, ?_⟩
  · simp [hasExpired]
  · simp [hasExpired]
  · simp [hasExpired]
  · simp [hasExpired]

theorem isProtected_eq_any (fmatch : String → String → Bool × Option GoError)
    (path : String) (globs : List String)
    (hwf : ∀ g ∈ globs, (fmatch g path).2 = none) :
    isProtected fmatch path globs = .ok (globs.any fun g => (fmatch g path).1) := by
  induction globs with
  | nil => rfl
  | cons g gs ih =>
    have hg := hwf g (List.mem_cons_self g gs)
    have ih := ih fun g1 h1 => hwf g1 (List.mem_cons_of_mem g h1)
    rcases hm : fmatch g path with ⟨b, e⟩
    rw [hm] at hg
    simp only at hg
    subst hg
    cases b
    · simp [isProtected, hm, ih]
    · simp [isProtected, hm]

/-- C3: on patterns for which glob matching reports no error, `isProtected`
returns a boolean, which is true exactly when one pattern of the list matches
the path; it is false for the empty list, and a reordering of the list does
not change it. -/
theorem isProtected_iff (fmatch : String → String → Bool × Option GoError)
    (path : String) (globs : List String)
    (hwf : ∀ g ∈ globs, (fmatch g path).2 = none) :
    isProtected fmatch path globs =
      .ok (decide (∃ g ∈ globs, (fmatch g path).1 = true)) ∧
    isProtected fmatch path [] = .ok false ∧
    ∀ globs1 : List String, globs1.Perm globs →
      isProtected fmatch path globs1 = isProtected fmatch path globs := by
  refine ⟨?_, rfl, ?_⟩
  · rw [isProtected_eq_any fmatch path globs hwf]
    congr 1
    rw [Bool.eq_iff_iff]
    simp [List.any_eq_true]
  · intro globs1 hp
    have hwf1 : ∀ g ∈ globs1, (fmatch g path).2 = none :=
      fun g hg => hwf g (hp.mem_iff.mp hg)
    rw [isProtected_eq_any fmatch path globs hwf,
      isProtected_eq_any fmatch path globs1 hwf1]
    congr 1
    rw [Bool.eq_iff_iff]
    simp only [List.any_eq_true]
    exact ⟨fun ⟨g, hg, h⟩ => ⟨g, hp.mem_iff.mp hg, h⟩,
      fun ⟨g, hg, h⟩ => ⟨g, hp.mem_iff.mpr hg, h⟩⟩

theorem isProtected_iff_witness :
    (∀ g ∈ ["bar", "path/to/foo"],
      (matchLiteral g "path/to/foo").2 = none) ∧
    isProtected matchLiteral "path/to/foo" ["bar", "path/to/foo"] = .ok true ∧
    isProtected matchLiteral "path/to/foo" ["path/to/foo", "bar"] = .ok true :=
  have h := isProtected_iff matchLiteral "path/to/foo" ["bar", "path/to/foo"]
    (by decide)
  ⟨by decide,
    h.1.trans (congrArg Except.ok (by decide)),
    (h.2.2 ["path/to/foo", "bar"] (List.Perm.swap _ _ _)).trans
      (h.1.trans (congrArg Except.ok (by decide)))⟩

/-! ## The visits of the walk -/

/-- C4: `visitDir` hands the directory to the consumer exactly when the
directory is not protected, is on the device of the root, is writable or the
session is forced, is empty and has expired, and the hand-off is not cut short
by the stop signal; in every other case it emits no entry. -/
theorem visitDir_emits_iff (r : Reaper) (env : Env) (sel : AcceptComm)
    (path : String) (info : FileInfo) (err : Option GoError) :
    (emission (r.visitDir env sel path info err) = some ⟨info, path⟩ ↔
      r.dirEligible env path info ∧ sel = .send) ∧
    (emission (r.visitDir env sel path info err) = none ↔
      ¬ (r.dirEligible env path info ∧ sel = .send)) := by
  unfold Reaper.visitDir Reaper.dirEligible
  rcases hp : r.isProtected env path with e | b
  · simp [emission]
  · cases b
    · cases hd : r.onSameDevice info <;> cases hw : r.isWritable info <;>
        cases hf : r.force <;> cases he : isEmpty env path <;>
        cases hx : hasExpired env info r.expungeTTL none <;>
        cases sel <;> simp [emission, accept]
    · simp [emission]

/-- C5, as stated, fails: with the malformed protection pattern `[` the visit
of a file emits nothing and does not return either, it faults. -/
theorem visitFile_bad_pattern_faults :
    emission (Reaper.visitFile (Protect ["["] sampleReaper) sampleEnv .send
      "tmp/old_content" sampleFile none) = none ∧
    ∀ v : Visit, Reaper.visitFile (Protect ["["] sampleReaper) sampleEnv .send
      "tmp/old_content" sampleFile none ≠ .ok v := by
  refine ⟨by decide, ?_⟩
  intro v h
  have h2 : Reaper.visitFile (Protect ["["] sampleReaper) sampleEnv .send
      "tmp/old_content" sampleFile none = .error ⟨"could not determine protection ["⟩ := by
    decide
  rw [h2] at h
  exact Except.noConfusion h

/-- C5, amended: when `isProtected` returns, that is when no malformed pattern
is reached, and the hand-off is not cut short by the stop signal, `visitFile`
emits the entry exactly when the path is not protected, the entry is on the
device of the root, is regular or irregular files are included, is writable or
the session is forced, and has expired; it returns a nil error in both
cases. -/
theorem visitFile_emits_iff (r : Reaper) (env : Env) (path : String)
    (info : FileInfo) (err : Option GoError) (b : Bool)
    (hret : r.isProtected env path = .ok b) :
    (emission (r.visitFile env .send path info err) = some ⟨info, path⟩ ↔
      r.fileEligible env path info) ∧
    (r.fileEligible env path info →
      r.visitFile env .send path info err = .ok ⟨some ⟨info, path⟩, none⟩) ∧
    (¬ r.fileEligible env path info →
      r.visitFile env .send path info err = .ok ⟨none, none⟩) := by
  unfold Reaper.visitFile Reaper.fileEligible
  simp only [hret]
  cases b
  · cases hd : r.onSameDevice info <;> cases hw : r.isWritable info <;>
      cases hf : r.force <;> cases hg : info.IsRegular <;>
      cases hi : r.expungeIrregular <;>
      cases hx : hasExpired env info r.expungeTTL none <;>
      simp [emission, accept]
  · simp [emission]

theorem visitFile_emits_iff_witness :
    sampleReaper.isProtected sampleEnv "tmp/old_content" = .ok false ∧
    sampleReaper.visitFile sampleEnv .send "tmp/old_content" sampleFile none =
      .ok ⟨some ⟨sampleFile, "tmp/old_content"⟩, none⟩ :=
  ⟨rfl, (visitFile_emits_iff sampleReaper sampleEnv "tmp/old_content" sampleFile
    none false rfl).2.1 (by decide)⟩

/-- C6, as stated, fails: with the malformed protection pattern `[`, a
directory on another device than the root does not make `visitDir` return
`filepath.SkipDir`; the visit faults. -/
theorem visitDir_bad_pattern_no_skip :
    ¬ ((∃ v : Visit, Reaper.visitDir (Protect ["["] sampleReaper) sampleEnv .send
          "tmp/mnt" otherDeviceDir none = .ok v ∧ v.ret = some .SkipDir) ↔
        (Reaper.isProtected (Protect ["["] sampleReaper) sampleEnv "tmp/mnt" = .ok true ∨
          Reaper.onSameDevice (Protect ["["] sampleReaper) otherDeviceDir = false)) := by
  intro h
  obtain ⟨v, hv, _⟩ := h.mpr (Or.inr (by decide))
  have h2 : Reaper.visitDir (Protect ["["] sampleReaper) sampleEnv .send
      "tmp/mnt" otherDeviceDir none = .error ⟨"could not determine protection ["⟩ := by
    decide
  rw [h2] at hv
  exact Except.noConfusion hv

/-- C6, amended: when `isProtected` returns the boolean `b`, that is when no
malformed pattern is reached, `visitDir` returns `filepath.SkipDir` exactly
when the directory is protected or is not on the device of the root; a
directory that is not protected, on the device of the root, not writable and
not forced is not emitted and makes `visitDir` return nil, not the skip
signal. -/
theorem visitDir_skip_iff (r : Reaper) (env : Env) (sel : AcceptComm)
    (path : String) (info : FileInfo) (err : Option GoError) (b : Bool)
    (hret : r.isProtected env path = .ok b) :
    ((∃ v : Visit, r.visitDir env sel path info err = .ok v ∧ v.ret = some .SkipDir) ↔
      (b = true ∨ r.onSameDevice info = false)) ∧
    (b = false ∧ r.onSameDevice info = true ∧ r.isWritable info = false ∧
        r.force = false →
      r.visitDir env sel path info err = .ok ⟨none, none⟩) := by
  unfold Reaper.visitDir
  rw [hret]
  cases b
  · cases hd : r.onSameDevice info <;> cases hw : r.isWritable info <;>
      cases hf : r.force <;> cases he : isEmpty env path <;>
      cases hx : hasExpired env info r.expungeTTL none <;>
      cases sel <;> simp [accept]
  · simp

theorem visitDir_skip_iff_witness :
    sampleReaper.isProtected sampleEnv "tmp/empty" = .ok false ∧
    sampleReaper.visitDir sampleEnv .send "tmp/empty" readOnlyDir none =
      .ok ⟨none, none⟩ ∧
    ¬ ∃ v : Visit, sampleReaper.visitDir sampleEnv .send "tmp/empty" readOnlyDir
      none = .ok v ∧ v.ret = some .SkipDir :=
  have h := visitDir_skip_iff sampleReaper sampleEnv .send "tmp/empty" readOnlyDir
    none false rfl
  ⟨rfl, h.2 (by decide), fun hv => absurd (h.1.mp hv) (by decide)⟩

/-! ## Emptiness -/

theorem isEmpty_iff (env : Env) (path : String) :
    isEmpty env path = true ↔
      ∃ f : Nat, env.osOpen path = .ok f ∧ (env.readdir f 1).1 = [] := by
  unfold isEmpty
  rcases h : env.osOpen path with e | f
  · simp
  · simp

theorem isEmpty_open_fails (env : Env) (path : String) (e : GoError)
    (h : env.osOpen path = .error e) : isEmpty env path = false := by
  simp [isEmpty, h]

/-- C7 fails on the code: `tmp/broken` opens, the enumeration of its children
fails with the error EIO and yields no entry, and `isEmpty` returns true, not
false; the error of `Readdir` is never looked at. -/
theorem isEmpty_true_on_readdir_error :
    sampleEnv.osOpen "tmp/broken" = .ok 4 ∧
    sampleEnv.readdir 4 1 = ([], some (.errno 5)) ∧
    isEmpty sampleEnv "tmp/broken" = true := by
  decide

/-! ## Stop -/

/-- C8, as stated, fails: a second call of `Stop` does not complete, it faults
on closing the channel that the first call closed. -/
theorem Stop_twice_faults :
    (sampleReaper.Stop >>= Reaper.Stop) = .error ⟨"close of closed channel"⟩ ∧
    ¬ ∃ r : Reaper, (sampleReaper.Stop >>= Reaper.Stop) = .ok r := by
  have h : (sampleReaper.Stop >>= Reaper.Stop) = .error ⟨"close of closed channel"⟩ := rfl
  refine ⟨h, ?_⟩
  rintro ⟨r, hr⟩
  rw [h] at hr
  exact Except.noConfusion hr

/-- C8, amended: on every session whose stop channel is still open, whether
the producer has finished (closed `results`) or not, `Stop` completes without
a fault and leaves the session cancelled, changing nothing else; a further
call of `Stop` on the cancelled session faults. -/
theorem Stop_once (r : Reaper) (h : r.stopClosed = false) :
    r.Stop = .ok { r with stopClosed := true } ∧
    Reaper.Stop { r with stopClosed := true } = .error ⟨"close of closed channel"⟩ := by
  simp [Reaper.Stop, h]

theorem Stop_once_witness :
    Reaper.stopClosed { sampleReaper with resultsClosed := true } = false ∧
    Reaper.Stop { sampleReaper with resultsClosed := true } =
      .ok { sampleReaper with resultsClosed := true, stopClosed := true } :=
  ⟨rfl, (Stop_once { sampleReaper with resultsClosed := true } rfl).1⟩

/-! ## The walk and the terminal error -/

mutual
theorem walkNode_ret {σ : Type} (fn : WalkFunc σ) (P : Option GoError → Prop)
    (hP : P none)
    (hfn : ∀ path info err s e s1, fn path info err s = .ok (e, s1) → P e)
    (path : String) (info : FileInfo) :
    ∀ (n : Node) (s : σ) (e : Option GoError) (s1 : σ),
      walkNode fn path info n s = .ok (e, s1) → P e
  | .node name l readErr children, s, e, s1, h => by
    rw [walkNode] at h
    split at h
    · exact hfn _ _ _ _ _ _ h
    · split at h
      · exact Except.noConfusion h
      · rename_i err1 s2 hcall
        split at h
        · cases h
          exact hfn _ _ _ _ _ _ hcall
        · exact walkChildren_ret fn P hP hfn path children s2 e s1 h
theorem walkChildren_ret {σ : Type} (fn : WalkFunc σ) (P : Option GoError → Prop)
    (hP : P none)
    (hfn : ∀ path info err s e s1, fn path info err s = .ok (e, s1) → P e)
    (path : String) :
    ∀ (l : List Node) (s : σ) (e : Option GoError) (s1 : σ),
      walkChildren fn path l s = .ok (e, s1) → P e
  | [], s, e, s1, h => by
    rw [walkChildren] at h
    cases h
    exact hP
  | .node name (.error e0) readErr children :: rest, s, e, s1, h => by
    rw [walkChildren] at h
    split at h
    · exact Except.noConfusion h
    · rename_i err s2 hcall
      split at h
      · cases h
        exact hfn _ _ _ _ _ _ hcall
      · exact walkChildren_ret fn P hP hfn path rest s2 e s1 h
  | .node name (.ok fileInfo) readErr children :: rest, s, e, s1, h => by
    rw [walkChildren] at h
    split at h
    · exact Except.noConfusion h
    · rename_i err s2 hcall
      split at h
      · cases h
        exact walkNode_ret fn P hP hfn _ fileInfo _ s _ _ hcall
      · exact walkChildren_ret fn P hP hfn path rest s2 e s1 h
end

theorem walkRoot_ret {σ : Type} (fn : WalkFunc σ) (P : Option GoError → Prop)
    (hP : P none)
    (hfn : ∀ path info err s e s1, fn path info err s = .ok (e, s1) → P e)
    (root : String) (tree : Node) (s : σ) (e : Option GoError) (s1 : σ)
    (h : walkRoot fn root tree s = .ok (e, s1)) : P e := by
  unfold walkRoot at h
  split at h
  · exact hfn _ _ _ _ _ _ h
  · exact walkNode_ret fn P hP hfn root _ _ s e s1 h

/-- Whatever `filepath.Walk` returns is nil or an error the callback returned,
and it is not `filepath.SkipDir`. -/
theorem Walk_ret {σ : Type} (fn : WalkFunc σ) (P : Option GoError → Prop)
    (hP : P none)
    (hfn : ∀ path info err s e s1, fn path info err s = .ok (e, s1) → P e)
    (root : String) (tree : Node) (s : σ) (e : Option GoError) (s1 : σ)
    (h : Walk fn root tree s = .ok (e, s1)) : P e ∧ e ≠ some .SkipDir := by
  unfold Walk at h
  split at h
  · exact Except.noConfusion h
  · rename_i err s2 hr
    split at h
    · cases h
      exact ⟨hP, by simp⟩
    · rename_i hne
      cases h
      exact ⟨walkRoot_ret fn P hP hfn root tree s _ _ hr, by simpa using hne⟩

/-- The callback never returns the error it was called with: it returns nil,
`filepath.SkipDir` or `errStop`. -/
theorem walk_ret (r : Reaper) (env : Env) (sel : AcceptComm) (path : String)
    (info : Option FileInfo) (err : Option GoError) (v : Visit)
    (h : r.walk env sel path info err = .ok v) :
    v.ret = none ∨ v.ret = some .SkipDir ∨ v.ret = some .errStop := by
  unfold Reaper.walk at h
  split at h
  · cases h; simp
  · cases info with
    | none => exact Except.noConfusion h
    | some info =>
      simp only at h
      split at h
      · unfold Reaper.visitDir at h
        split at h
        · exact Except.noConfusion h
        · cases h; simp
        · split at h
          · cases h; simp
          · split at h
            · cases h; simp
            · split at h
              · cases h; cases sel <;> simp [accept]
              · cases h; simp
      · unfold Reaper.visitFile at h
        split at h
        · exact Except.noConfusion h
        · cases h; simp
        · split at h
          · cases h; simp
          · split at h
            · cases h; simp
            · split at h
              · cases h; simp
              · split at h
                · cases h; cases sel <;> simp [accept]
                · cases h; simp

/-- The producer never sets the terminal error: at the end of every walk the
error field of the session is what it was at the start. -/
theorem produce_err_unchanged (r : Reaper) (sched : Nat → Moment) (root : String)
    (tree : Node) (r1 : Reaper) (out : List Entry)
    (h : r.produce sched root tree = .ok (r1, out)) : r1.Err = r.err := by
  unfold Reaper.produce at h
  split at h
  · exact Except.noConfusion h
  · rename_i err s hw
    have hret := Walk_ret (r.walkFn sched)
        (fun e => e = none ∨ e = some .SkipDir ∨ e = some .errStop)
        (Or.inl rfl) (by
          intro path info err0 s0 e s1 hf
          unfold Reaper.walkFn at hf
          simp only at hf
          split at hf
          · exact Except.noConfusion hf
          · rename_i v hv
            cases hf
            exact walk_ret _ _ _ _ _ _ v hv) root tree _ err s hw
    cases h
    rcases hret with ⟨h1 | h1 | h1, hne⟩
    · simp [Reaper.Err, h1]
    · exact absurd h1 hne
    · simp [Reaper.Err, h1]

/-- C10 fails on the code: on the tree `lockedTree`, without cancellation, the
tree walk calls the callback on `tmp/locked` with the error EACCES, the
callback returns nil, and at the end of the walk, `results` being closed, the
terminal error is nil and no entry was emitted. -/
theorem produce_drops_walk_error :
    Walk recordCalls "tmp" lockedTree [] =
      .ok (none, [("tmp", none), ("tmp/locked", some (.errno 13))]) ∧
    sampleReaper.walk sampleEnv .send "tmp/locked" (some lockedDir) (some (.errno 13)) =
      .ok ⟨none, none⟩ ∧
    (sampleReaper.produce calm "tmp" lockedTree).map
      (fun p => (p.1.Err, p.1.resultsClosed, p.2)) = .ok (none, true, []) := by
  decide

/-! ## Device and symlink tests -/

/-- C17: `onSameDevice` is true exactly when the two device ids are equal; it
is reflexive and symmetric, true for the device ids 6 and 6 and false for 5
and 6. -/
theorem onSameDevice_iff (a b : FileInfo) :
    (onSameDevice a b = true ↔ a.statDev = b.statDev) ∧
    onSameDevice a a = true ∧
    onSameDevice a b = onSameDevice b a ∧
    onSameDevice { a with statDev := 6 } { b with statDev := 6 } = true ∧
    onSameDevice { a with statDev := 5 } { b with statDev := 6 } = false := by
  refine ⟨by simp [onSameDevice], by simp [onSameDevice], ?_, by simp [onSameDevice],
    by simp [onSameDevice]⟩
  simp only [onSameDevice]
  rw [Bool.eq_iff_iff]
  simp only [beq_iff_eq]
  exact eq_comm

/-- C18: `isSymlink` is true exactly when the symlink bit (bit 27, the value
`os.ModeSymlink`) is set in the mode; it is false for the zero mode and for
the 32 bit complement of `os.ModeType`, the mode with every non-type bit
set. -/
theorem isSymlink_iff (a : FileInfo) :
    isSymlink a = a.mode.testBit 27 ∧
    isSymlink { a with mode := 0 } = false ∧
    isSymlink { a with mode := (2 ^ 32 - 1) ^^^ ModeType } = false := by
  refine ⟨land_two_pow_ne_zero a.mode 27, ?_, ?_⟩
  · simp [isSymlink]
  · simp only [isSymlink]
    decide

/-! ## The write bits -/

theorem isWritable_bits (f : FileInfo) (euid egid : Int) (groups : Int → Bool)
    (perm : FileMode) :
    isWritable f euid egid groups perm =
      (decide (euid = 0) || perm.testBit 1 ||
        (perm.testBit 7 && decide (uid f = euid)) ||
        (perm.testBit 4 && (decide (gid f = egid) || groups (gid f)))) := by
  unfold isWritable
  rw [land_S_IWOTH, land_S_IWUSR, land_S_IWGRP]
  by_cases h0 : euid = 0
  · simp [h0]
  · cases h1 : perm.testBit 1
    · cases h7 : perm.testBit 7 <;> cases h4 : perm.testBit 4 <;>
        by_cases hu : uid f = euid <;> by_cases hg : gid f = egid <;>
        cases hs : groups (gid f) <;> simp [h0, hu, hg, hs]
    · simp [h0]

/-- C20: `isWritable` is monotone in the permission bits, if it is true for
`p` it is true for `p` with the bits of any `q` added, and it reads only the
three write bits: it is unchanged by masking with 0222, and two permissions
that agree on the bits 0200 (bit 7), 0020 (bit 4) and 0002 (bit 1) give the
same result. -/
theorem isWritable_mono_bits (f : FileInfo) (euid egid : Int) (groups : Int → Bool)
    (p q : FileMode) :
    (isWritable f euid egid groups p = true →
      isWritable f euid egid groups (p ||| q) = true) ∧
    isWritable f euid egid groups p = isWritable f euid egid groups (p &&& 0o222) ∧
    (p.testBit 7 = q.testBit 7 ∧ p.testBit 4 = q.testBit 4 ∧
        p.testBit 1 = q.testBit 1 →
      isWritable f euid egid groups p = isWritable f euid egid groups q) := by
  refine ⟨?_, ?_, ?_⟩
  · rw [isWritable_bits, isWritable_bits]
    simp only [Nat.testBit_or]
    cases p.testBit 1 <;> cases p.testBit 7 <;> cases p.testBit 4 <;>
      cases q.testBit 1 <;> cases q.testBit 7 <;> cases q.testBit 4 <;>
      cases decide (euid = 0) <;> cases decide (uid f = euid) <;>
      cases decide (gid f = egid) <;> cases groups (gid f) <;> simp
  · rw [isWritable_bits, isWritable_bits]
    have h1 : (p &&& 0o222).testBit 1 = p.testBit 1 := by
      rw [Nat.testBit_and]; simp; intro _; decide
    have h7 : (p &&& 0o222).testBit 7 = p.testBit 7 := by
      rw [Nat.testBit_and]; simp; intro _; decide
    have h4 : (p &&& 0o222).testBit 4 = p.testBit 4 := by
      rw [Nat.testBit_and]; simp; intro _; decide
    rw [h1, h7, h4]
  · rintro ⟨h7, h4, h1⟩
    rw [isWritable_bits, isWritable_bits, h7, h4, h1]

theorem isWritable_mono_bits_witness :
    isWritable sampleFile 1000 1000 (fun _ => false) 0o200 = true ∧
    isWritable sampleFile 1000 1000 (fun _ => false) (0o200 ||| 0o455) = true ∧
    isWritable sampleFile 1000 1000 (fun _ => false) 0o644 =
      isWritable sampleFile 1000 1000 (fun _ => false) 0o200 :=
  have h := isWritable_mono_bits sampleFile 1000 1000 (fun _ => false) 0o200 0o455
  have h2 := isWritable_mono_bits sampleFile 1000 1000 (fun _ => false) 0o644 0o200
  ⟨by decide, h.1 (by decide), h2.2.2 (by decide)⟩

/-! ## The force flag -/

theorem land_ModeType_of_lt (d : Nat) (hd : d < 512) : d &&& ModeType = 0 := by
  apply Nat.eq_of_testBit_eq
  intro i
  rw [Nat.testBit_and, Nat.zero_testBit]
  by_cases hi : i < 9
  · have : ModeType.testBit i = false := by
      interval_cases i <;> decide
    rw [this, Bool.and_false]
  · have h9 : 9 ≤ i := Nat.le_of_not_lt hi
    have : d.testBit i = false := by
      apply Nat.testBit_lt_two_pow
      calc d < 2 ^ 9 := hd
        _ ≤ 2 ^ i := Nat.pow_le_pow_right (by decide) h9
    rw [this, Bool.false_and]

theorem IsRegular_xor_perm (info : FileInfo) (u g : Nat) (d : FileMode) (hd : d < 512) :
    FileInfo.IsRegular { info with statUid := u, statGid := g, mode := info.mode ^^^ d } =
      info.IsRegular := by
  simp only [FileInfo.IsRegular]
  rw [Nat.and_xor_distrib_right, land_ModeType_of_lt d hd, Nat.xor_zero]

/-- C15, as stated, fails for `visitDir`: with the force flag set, for the
caller 1000, the empty expired directory `tmp/empty` of mode 0755 is emitted,
and the same directory of mode 0000, which `os.Open` refuses to open, is not:
`isEmpty` is required with or without force. -/
theorem force_needs_readable_dir :
    (Force sampleReaper).force = true ∧
    noPermDir = { sampleDir with mode := sampleDir.mode ^^^ 0o755 } ∧
    mayRead 1000 1000 (fun _ => false) sampleDir = true ∧
    mayRead 1000 1000 (fun _ => false) noPermDir = false ∧
    ((Force sampleReaper).visitDir (guardedEnv (Force sampleReaper) sampleDir) .send
        "tmp/empty" sampleDir none).map (fun v => (v.emitted.isSome, v.ret)) =
      .ok (true, none) ∧
    ((Force sampleReaper).visitDir (guardedEnv (Force sampleReaper) noPermDir) .send
        "tmp/empty" noPermDir none).map (fun v => (v.emitted.isSome, v.ret)) =
      .ok (false, none) := by
  decide

/-- C15, amended: with the force flag set, two runs that differ only in the
owner id, the group id and the permission bits of the entry (the mode changed
by any `d` below 01000), in the euid, the egid and the supplementary groups of
the session, and in what `os.Open` and `Readdir` answer, decide alike, to emit
or not and with the same returned error or fault, in `visitFile`, and in
`visitDir` when `isEmpty` answers alike in the two runs; a directory that
`os.Open` does not open is not emitted. -/
theorem force_bypasses_isWritable (r : Reaper) (env : Env) (sel : AcceptComm)
    (path : String) (info : FileInfo) (err : Option GoError)
    (euid egid : Int) (groups : Int → Bool) (u g : Nat) (d : FileMode)
    (osOpen2 : String → Except GoError Nat)
    (readdir2 : Nat → Nat → List FileInfo × Option GoError)
    (hforce : r.force = true) (hd : d < 512) :
    (r.visitFile env sel path info err).map (fun v => (v.emitted.isSome, v.ret)) =
      (Reaper.visitFile { r with euid := euid, egid := egid, groups := groups }
        { env with osOpen := osOpen2, readdir := readdir2 } sel
        path { info with statUid := u, statGid := g, mode := info.mode ^^^ d } err).map
        (fun v => (v.emitted.isSome, v.ret)) ∧
    (isEmpty env path = isEmpty { env with osOpen := osOpen2, readdir := readdir2 } path →
      (r.visitDir env sel path info err).map (fun v => (v.emitted.isSome, v.ret)) =
        (Reaper.visitDir { r with euid := euid, egid := egid, groups := groups }
          { env with osOpen := osOpen2, readdir := readdir2 } sel
          path { info with statUid := u, statGid := g, mode := info.mode ^^^ d } err).map
          (fun v => (v.emitted.isSome, v.ret))) ∧
    (∀ e : GoError, env.osOpen path = .error e →
      emission (r.visitDir env sel path info err) = none) := by
  refine ⟨?_, ?_, ?_⟩
  · simp only [Reaper.visitFile, IsRegular_xor_perm info u g d hd, hforce]
    simp only [Reaper.isProtected, Reaper.onSameDevice, onSameDevice, hasExpired]
    rcases isProtected env.fmatch path r.protect with e | b
    · rfl
    · cases b
      · cases h1 : (r.root.statDev == info.statDev) <;> cases h2 : info.IsRegular <;>
          cases h3 : r.expungeIrregular <;>
          by_cases h4 : env.timeSince info.statAtim > r.expungeTTL <;>
          cases sel <;> simp [accept, Except.map, h4]
      · rfl
  · intro hE
    simp only [Reaper.visitDir, hforce, ← hE]
    simp only [Reaper.isProtected, Reaper.onSameDevice, onSameDevice, hasExpired]
    rcases isProtected env.fmatch path r.protect with e | b
    · rfl
    · cases b
      · cases h1 : (r.root.statDev == info.statDev) <;> cases h2 : isEmpty env path <;>
          by_cases h4 : env.timeSince info.statAtim > r.expungeTTL <;>
          cases sel <;> simp [accept, Except.map, h4]
      · rfl
  · intro e he
    have hE : isEmpty env path = false := by simp [isEmpty, he]
    simp only [Reaper.visitDir, hE]
    rcases r.isProtected env path with e1 | b
    · rfl
    · cases b
      · cases h1 : r.onSameDevice info <;> cases h2 : r.isWritable info <;>
          cases h3 : r.force <;> simp [emission]
      · rfl

theorem force_bypasses_isWritable_witness :
    (Force sampleReaper).force = true ∧
    isEmpty sampleEnv "tmp/empty" =
      isEmpty { sampleEnv with osOpen := fun _ => .ok 3, readdir := sampleEnv.readdir }
        "tmp/empty" ∧
    (Reaper.visitDir { Force sampleReaper with euid := 7, egid := 8, groups := fun _ => false }
        { sampleEnv with osOpen := fun _ => .ok 3, readdir := sampleEnv.readdir } .send
        "tmp/empty"
        { sampleDir with statUid := 0, statGid := 0, mode := sampleDir.mode ^^^ 0o755 }
        none).map (fun v => (v.emitted.isSome, v.ret)) = .ok (true, none) :=
  have h := (force_bypasses_isWritable (Force sampleReaper) sampleEnv .send
    "tmp/empty" sampleDir none 7 8 (fun _ => false) 0 0 0o755 (fun _ => .ok 3)
    sampleEnv.readdir rfl (by decide)).2.1 (by decide)
  ⟨rfl, by decide, h.symm.trans (by decide)⟩

/-! ## Cancellation -/

theorem walkFn_stopped (r : Reaper) (sched : Nat → Moment) (path : String)
    (info : Option FileInfo) (err : Option GoError) (s : Nat × List Entry)
    (h : (sched s.1).stopClosed = true) :
    r.walkFn sched path info err s = .ok (some .errStop, (s.1 + 1, s.2)) := by
  simp [Reaper.walkFn, Reaper.walk, h]

theorem Walk_stopped (r : Reaper) (sched : Nat → Moment) (root : String) (tree : Node)
    (h : (sched 0).stopClosed = true) :
    Walk (r.walkFn sched) root tree (0, []) = .ok (some .errStop, (1, [])) := by
  obtain ⟨name, l, readErr, children⟩ := tree
  have hf : ∀ (info : Option FileInfo) (err : Option GoError),
      r.walkFn sched root info err (0, []) = .ok (some .errStop, (1, [])) :=
    fun info err => walkFn_stopped r sched root info err (0, []) h
  cases l with
  | error e => simp [Walk, walkRoot, hf]
  | ok info =>
    cases hd : info.IsDir
    · simp [Walk, walkRoot, walkNode, hd, hf]
    · simp [Walk, walkRoot, walkNode, hd, hf]

/-- C11: once the stop signal has fired, the callback `walk` returns `errStop`
and emits nothing, whatever its arguments; when the walk ends with `errStop`
the producer closes `results` and leaves the error field as it was; so a
session stopped before the first callback ends with no entry and its error
field unchanged. -/
theorem stop_is_not_an_error (r : Reaper) (env : Env) (sel : AcceptComm)
    (path : String) (info : Option FileInfo) (err : Option GoError)
    (sched : Nat → Moment) (root : String) (tree : Node) :
    Reaper.walk { r with stopClosed := true } env sel path info err =
      .ok ⟨none, some .errStop⟩ ∧
    (∀ s : Nat × List Entry,
      Walk (r.walkFn sched) root tree (0, []) = .ok (some .errStop, s) →
        r.produce sched root tree = .ok ({ r with resultsClosed := true }, s.2)) ∧
    r.produce (fun _ => ⟨env, true, sel⟩) root tree =
      .ok ({ r with resultsClosed := true }, []) := by
  refine ⟨by simp [Reaper.walk], ?_, ?_⟩
  · intro s hs
    simp [Reaper.produce, hs]
  · simp [Reaper.produce, Walk_stopped r (fun _ => ⟨env, true, sel⟩) root tree rfl]

theorem stop_is_not_an_error_witness :
    Walk (e2eReaper.walkFn (stopFrom 5 (envOf (10 * 10 ^ 9) "tmp" e2eTree))) "tmp" e2eTree
        (0, []) = .ok (some .errStop, (6, [⟨e2eDir "old_empty" 0, "tmp/old_empty"⟩])) ∧
    (e2eReaper.produce (stopFrom 5 (envOf (10 * 10 ^ 9) "tmp" e2eTree)) "tmp" e2eTree).map
        (fun p => (p.1.Err, p.1.resultsClosed, p.2)) =
      .ok (none, true, [⟨e2eDir "old_empty" 0, "tmp/old_empty"⟩]) :=
  ⟨by decide,
    (congrArg (Except.map fun p => (p.1.Err, p.1.resultsClosed, p.2))
      ((stop_is_not_an_error e2eReaper (envOf (10 * 10 ^ 9) "tmp" e2eTree) .send "tmp" none
        none (stopFrom 5 (envOf (10 * 10 ^ 9) "tmp" e2eTree)) "tmp" e2eTree).2.1
        (6, [⟨e2eDir "old_empty" 0, "tmp/old_empty"⟩]) (by decide))).trans rfl⟩

/-! ## Malformed patterns -/

/-- C12, as stated, fails: the list holds the malformed pattern `[`, after a
pattern that matches, and `isProtected` returns true instead of raising a
fault. -/
theorem isProtected_ignores_later_malformed :
    matchLiteral "[" "bar" = (false, some .ErrBadPattern) ∧
    isProtected matchLiteral "bar" ["bar", "["] = .ok true := by
  decide

/-- C12, amended: let `bad` be the first malformed pattern of the list, the
patterns before it being well formed. Then `isProtected` raises the fault
naming `bad` when no pattern before it matches the path, whatever follows it,
and returns true, without looking at `bad`, when a pattern before it
matches. -/
theorem isProtected_first_malformed (fmatch : String → String → Bool × Option GoError)
    (path : String) (pre post : List String) (bad : String) (e : GoError)
    (hpre : ∀ g ∈ pre, (fmatch g path).2 = none)
    (hbad : fmatch bad path = (false, some e)) :
    isProtected fmatch path (pre ++ bad :: post) =
      if pre.any (fun g => (fmatch g path).1) then .ok true
      else .error ⟨"could not determine protection " ++ bad⟩ := by
  induction pre with
  | nil => simp [isProtected, hbad]
  | cons g gs ih =>
    have hg := hpre g (List.mem_cons_self g gs)
    have ih := ih fun g1 h1 => hpre g1 (List.mem_cons_of_mem g h1)
    rcases hm : fmatch g path with ⟨b, e1⟩
    rw [hm] at hg
    simp only at hg
    subst hg
    cases b
    · simp [isProtected, hm, ih]
    · simp [isProtected, hm]

theorem isProtected_first_malformed_witness :
    (∀ g ∈ ["foo"], (matchLiteral g "bar").2 = none) ∧
    matchLiteral "[" "bar" = (false, some .ErrBadPattern) ∧
    isProtected matchLiteral "bar" (["foo"] ++ "[" :: ["bar"]) =
      .error ⟨"could not determine protection ["⟩ :=
  ⟨by decide, by decide,
    (isProtected_first_malformed matchLiteral "bar" ["foo"] ["bar"] "[" .ErrBadPattern
      (by decide) (by decide)).trans (by decide)⟩

/-! ## Faults of the callback -/

/-- With metadata present and `isProtected` returning, the callback returns. -/
theorem walk_returns_of_info (r : Reaper) (env : Env) (sel : AcceptComm)
    (path : String) (info : FileInfo) (err : Option GoError) (b : Bool)
    (hret : r.isProtected env path = .ok b) :
    ∃ v : Visit, r.walk env sel path (some info) err = .ok v := by
  unfold Reaper.walk
  split
  · exact ⟨_, rfl⟩
  · simp only
    split
    · unfold Reaper.visitDir
      rw [hret]
      cases b
      · simp only
        split
        · exact ⟨_, rfl⟩
        · split
          · exact ⟨_, rfl⟩
          · split
            · exact ⟨_, rfl⟩
            · exact ⟨_, rfl⟩
      · exact ⟨_, rfl⟩
    · unfold Reaper.visitFile
      rw [hret]
      cases b
      · simp only
        split
        · exact ⟨_, rfl⟩
        · split
          · exact ⟨_, rfl⟩
          · split
            · exact ⟨_, rfl⟩
            · split
              · exact ⟨_, rfl⟩
              · exact ⟨_, rfl⟩
      · exact ⟨_, rfl⟩

/-- C16 fails on the code: on the tree `vanishedTree` the tree walk calls the
callback on `tmp/gone` with a nil `info` and the error ENOENT; the session has
no protection pattern at all, the stop signal has not fired, and `walk` does
not return: it faults on `info.IsDir()`, which ends the producer. -/
theorem walk_nil_info_faults :
    Walk recordArgs "tmp" vanishedTree [] =
      .ok (none, [("tmp", true, none), ("tmp/gone", false, some (.errno 2))]) ∧
    sampleReaper.protect = [] ∧
    sampleReaper.walk sampleEnv .send "tmp/gone" none (some (.errno 2)) =
      .error ⟨"invalid memory address or nil pointer dereference"⟩ ∧
    (sampleReaper.produce calm "tmp" vanishedTree).map (fun p => p.2) =
      .error ⟨"invalid memory address or nil pointer dereference"⟩ := by
  decide

/-! ## Protection patterns and the root of the scan -/

/-- C14, as stated, fails: for the scan root `tmp` the callback is called on
`tmp/old_with_young_content/old_content`, which the pattern
`old_with_young_content/*` does not match, and the scan yields that file after
the directory `tmp/old_empty`. -/
theorem protect_misses_below_root :
    matchStar "old_with_young_content/*" "tmp/old_with_young_content/old_content" =
      (false, none) ∧
    ((Protect ["old_with_young_content/*"] e2eReaper).produce
        (still (envOf (10 * 10 ^ 9) "tmp" e2eTree)) "tmp" e2eTree).map (fun p => p.2) =
      .ok [⟨e2eDir "old_empty" 0, "tmp/old_empty"⟩,
        ⟨e2eFile "old_content" 0, "tmp/old_with_young_content/old_content"⟩] := by
  decide

/-- C14, amended: for the scan root `.`, where the callback is called on
`old_with_young_content/old_content`, the scan with the protection pattern
`old_with_young_content/*` does not yield that file and yields the directory
`old_empty`, which is all it yields. -/
theorem protect_relative_to_root :
    matchStar "old_with_young_content/*" "old_with_young_content/old_content" =
      (true, none) ∧
    ((Protect ["old_with_young_content/*"] e2eReaper).produce
        (still (envOf (10 * 10 ^ 9) "." e2eTree)) "." e2eTree).map (fun p => p.2) =
      .ok [⟨e2eDir "old_empty" 0, "old_empty"⟩] := by
  decide

/-- An instance with another root: for the scan root `tmp` the pattern
`tmp/old_with_young_content/*`, which carries the root, protects the file. -/
theorem protect_carrying_root :
    ((Protect ["tmp/old_with_young_content/*"] e2eReaper).produce
        (still (envOf (10 * 10 ^ 9) "tmp" e2eTree)) "tmp" e2eTree).map (fun p => p.2) =
      .ok [⟨e2eDir "old_empty" 0, "tmp/old_empty"⟩] := by
  decide

/-! ## The root of the scan -/

mutual
theorem walkNode_rel {σ : Type} (fn : WalkFunc σ) (R : σ → σ → Prop)
    (hrefl : ∀ s, R s s) (htrans : ∀ a b c, R a b → R b c → R a c)
    (hfn : ∀ path info err s e s1, fn path info err s = .ok (e, s1) → R s s1)
    (path : String) (info : FileInfo) :
    ∀ (n : Node) (s : σ) (e : Option GoError) (s1 : σ),
      walkNode fn path info n s = .ok (e, s1) → R s s1
  | .node name l readErr children, s, e, s1, h => by
    rw [walkNode] at h
    split at h
    · exact hfn _ _ _ _ _ _ h
    · split at h
      · exact Except.noConfusion h
      · rename_i err1 s2 hcall
        have h12 := hfn _ _ _ _ _ _ hcall
        split at h
        · cases h
          exact h12
        · exact htrans _ _ _ h12
            (walkChildren_rel fn R hrefl htrans hfn path children s2 e s1 h)
theorem walkChildren_rel {σ : Type} (fn : WalkFunc σ) (R : σ → σ → Prop)
    (hrefl : ∀ s, R s s) (htrans : ∀ a b c, R a b → R b c → R a c)
    (hfn : ∀ path info err s e s1, fn path info err s = .ok (e, s1) → R s s1)
    (path : String) :
    ∀ (l : List Node) (s : σ) (e : Option GoError) (s1 : σ),
      walkChildren fn path l s = .ok (e, s1) → R s s1
  | [], s, e, s1, h => by
    rw [walkChildren] at h
    cases h
    exact hrefl _
  | .node name (.error e0) readErr children :: rest, s, e, s1, h => by
    rw [walkChildren] at h
    split at h
    · exact Except.noConfusion h
    · rename_i err s2 hcall
      have h12 := hfn _ _ _ _ _ _ hcall
      split at h
      · cases h
        exact h12
      · exact htrans _ _ _ h12
          (walkChildren_rel fn R hrefl htrans hfn path rest s2 e s1 h)
  | .node name (.ok fileInfo) readErr children :: rest, s, e, s1, h => by
    rw [walkChildren] at h
    split at h
    · exact Except.noConfusion h
    · rename_i err s2 hcall
      have h12 := walkNode_rel fn R hrefl htrans hfn _ fileInfo _ s _ _ hcall
      split at h
      · cases h
        exact h12
      · exact htrans _ _ _ h12
          (walkChildren_rel fn R hrefl htrans hfn path rest s2 e s1 h)
end

/-- The callback only adds to the entries handed over. -/
theorem walkFn_extends (r : Reaper) (sched : Nat → Moment) (path : String)
    (info : Option FileInfo) (err : Option GoError) (s : Nat × List Entry)
    (e : Option GoError) (s1 : Nat × List Entry)
    (h : r.walkFn sched path info err s = .ok (e, s1)) : ∃ l, s1.2 = s.2 ++ l := by
  unfold Reaper.walkFn at h
  simp only at h
  split at h
  · exact Except.noConfusion h
  · cases h
    exact ⟨_, rfl⟩

/-- C19, as stated, fails: `tmp/empty` is a root that is a directory, not
protected, writable, empty and expired, and when the stop signal has fired
before the first callback, the callback emits nothing and the stream ends
without the root. -/
theorem root_not_emitted_when_stopped :
    sampleReaper.root = sampleDir ∧ sampleDir.IsDir = true ∧
    sampleReaper.dirEligible sampleEnv "tmp/empty" sampleDir ∧
    emission (Reaper.walk { sampleReaper with stopClosed := true } sampleEnv .send
      "tmp/empty" (some sampleDir) none) = none ∧
    (sampleReaper.produce (fun _ => ⟨sampleEnv, true, .send⟩) "tmp/empty"
      emptyRootTree).map (fun p => p.2) = .ok [] := by
  decide

/-- C19, amended: when the stop signal has not fired before the first callback
and the consumer receives what is offered, for every root that is a directory,
the one the session was made for, not protected, writable or forced, empty and
expired, the first callback of the walk emits the root as an entry: it is the
first entry of every walk that ends, and the only one when the listing of the
root is empty. -/
theorem root_is_candidate (r : Reaper) (sched : Nat → Moment) (root name : String)
    (info : FileInfo) (readErr : Option GoError) (children : List Node)
    (hstop : (sched 0).stopClosed = false) (hsel : (sched 0).sel = .send)
    (hroot : r.root = info) (hdir : info.IsDir = true)
    (hprot : r.isProtected (sched 0).env root = .ok false)
    (hw : r.isWritable info = true ∨ r.force = true)
    (hempty : isEmpty (sched 0).env root = true)
    (hexp : hasExpired (sched 0).env info r.expungeTTL none = true) :
    r.walkFn sched root (some info) readErr (0, []) =
      .ok (none, (1, [⟨info, root⟩])) ∧
    (∀ (r1 : Reaper) (out : List Entry),
      r.produce sched root (.node name (.ok info) readErr children) = .ok (r1, out) →
        out.head? = some ⟨info, root⟩) ∧
    r.produce sched root (.node name (.ok info) readErr []) =
      .ok ({ r with resultsClosed := true }, [⟨info, root⟩]) := by
  have hww : (r.isWritable info || r.force) = true := by
    rcases hw with h | h <;> simp [h]
  have hdev : r.onSameDevice info = true := by
    simp [Reaper.onSameDevice, onSameDevice, hroot]
  have hvisit : r.visitDir (sched 0).env .send root info readErr =
      .ok ⟨some ⟨info, root⟩, none⟩ := by
    simp [Reaper.visitDir, hprot, hdev, hww, hempty, hexp, accept]
  have hcall : r.walkFn sched root (some info) readErr (0, []) =
      .ok (none, (1, [⟨info, root⟩])) := by
    have hwalk : Reaper.walk { r with stopClosed := (sched 0).stopClosed } (sched 0).env
        (sched 0).sel root (some info) readErr = .ok ⟨some ⟨info, root⟩, none⟩ := by
      rw [hstop, hsel]
      simp only [Reaper.walk, hdir]
      exact hvisit
    simp only [Reaper.walkFn, hwalk]
    rfl
  have hnode : walkNode (r.walkFn sched) root info (.node name (.ok info) readErr children)
      (0, []) =
      if readErr.isSome then .ok (none, (1, [⟨info, root⟩]))
      else walkChildren (r.walkFn sched) root children (1, [⟨info, root⟩]) := by
    rw [walkNode]
    simp [hdir, hcall]
  refine ⟨hcall, ?_, ?_⟩
  · intro r1 out h
    simp only [Reaper.produce, Walk, walkRoot, hnode] at h
    by_cases hre : readErr.isSome = true
    · simp only [hre, if_true] at h
      simp at h
      rw [← h.2]
      rfl
    · simp only [hre] at h
      rcases hc : walkChildren (r.walkFn sched) root children (1, [⟨info, root⟩]) with
        f | ⟨e2, s2⟩
      · rw [hc] at h
        simp at h
      · obtain ⟨l, hl⟩ := walkChildren_rel (r.walkFn sched)
          (fun a b => ∃ l, b.2 = a.2 ++ l) (fun a => ⟨[], by simp⟩)
          (fun a b c ⟨l1, h1⟩ ⟨l2, h2⟩ => ⟨l1 ++ l2, by rw [h2, h1, List.append_assoc]⟩)
          (walkFn_extends r sched) root children _ _ _ hc
        rw [hc] at h
        by_cases hsk : e2 = some GoError.SkipDir
        · simp [hsk] at h
          rw [← h.2, hl]
          rfl
        · simp [hsk] at h
          rw [← h.2, hl]
          rfl
  · have hnil : walkNode (r.walkFn sched) root info (.node name (.ok info) readErr [])
        (0, []) = .ok (none, (1, [⟨info, root⟩])) := by
      rw [walkNode]
      simp [hdir, hcall, walkChildren]
    simp [Reaper.produce, Walk, walkRoot, hnil]

theorem root_is_candidate_witness :
    (calm 0).stopClosed = false ∧ (calm 0).sel = .send ∧
    sampleReaper.dirEligible (calm 0).env "tmp/empty" sampleDir ∧
    (sampleReaper.produce calm "tmp/empty" emptyRootTree).map (fun p => p.2) =
      .ok [⟨sampleDir, "tmp/empty"⟩] :=
  ⟨rfl, rfl, by decide,
    (congrArg (Except.map fun p => p.2)
      (root_is_candidate sampleReaper calm "tmp/empty" "empty" sampleDir none []
        rfl rfl rfl (by decide) (by decide) (by decide) (by decide) (by decide)).2.2).trans
      rfl⟩

/-! ## The sequence of entries delivered -/

theorem chosen_append (r : Reaper) (sched : Nat → Moment)
    (a b : List (String × Option FileInfo)) :
    ∀ k, r.chosen sched k (a ++ b) =
      r.chosen sched k a ++ r.chosen sched (k + a.length) b := by
  induction a with
  | nil => intro k; simp [Reaper.chosen]
  | cons p rest ih =>
    intro k
    obtain ⟨path, info⟩ := p
    cases info with
    | none =>
      have hk : k + 1 + rest.length = k + (rest.length + 1) := by omega
      rw [List.cons_append, List.length_cons]
      simp only [Reaper.chosen]
      rw [ih (k + 1), hk]
    | some i =>
      have hk : k + 1 + rest.length = k + (rest.length + 1) := by omega
      rw [List.cons_append, List.length_cons]
      simp only [Reaper.chosen]
      rw [ih (k + 1), hk, List.append_assoc]

theorem undisturbed_append (r : Reaper) (sched : Nat → Moment)
    (a b : List (String × Option FileInfo)) :
    ∀ k, r.undisturbed sched k (a ++ b) =
      (r.undisturbed sched k a && r.undisturbed sched (k + a.length) b) := by
  induction a with
  | nil => intro k; simp [Reaper.undisturbed]
  | cons p rest ih =>
    intro k
    obtain ⟨path, info⟩ := p
    cases info with
    | none => simp [Reaper.undisturbed]
    | some i =>
      have hk : k + 1 + rest.length = k + (rest.length + 1) := by omega
      rw [List.cons_append, List.length_cons]
      simp only [Reaper.undisturbed]
      rw [ih (k + 1), hk]
      simp only [Bool.and_assoc]

theorem visitFile_cases (r : Reaper) (env : Env) (sel : AcceptComm) (path : String)
    (info : FileInfo) (err : Option GoError) (b : Bool)
    (hret : r.isProtected env path = .ok b) :
    r.visitFile env sel path info err =
      .ok (if r.fileEligible env path info then accept sel info path else ⟨none, none⟩) := by
  unfold Reaper.visitFile Reaper.fileEligible
  simp only [hret]
  cases b
  · by_cases h1 : r.onSameDevice info = true <;>
      by_cases h2 : info.IsRegular = true <;>
      by_cases h3 : r.expungeIrregular = true <;>
      by_cases h4 : r.isWritable info = true <;>
      by_cases h5 : r.force = true <;>
      by_cases h6 : hasExpired env info r.expungeTTL none = true <;>
      simp [h1, h2, h3, h4, h5, h6]
  · simp

theorem visitDir_cases (r : Reaper) (env : Env) (sel : AcceptComm) (path : String)
    (info : FileInfo) (err : Option GoError) (b : Bool)
    (hret : r.isProtected env path = .ok b) :
    r.visitDir env sel path info err =
      if r.prunes env path info then .ok ⟨none, some .SkipDir⟩
      else .ok (if r.dirEligible env path info then accept sel info path
        else ⟨none, none⟩) := by
  unfold Reaper.visitDir Reaper.dirEligible Reaper.prunes
  simp only [hret]
  cases b
  · by_cases h1 : r.onSameDevice info = true <;>
      by_cases h4 : r.isWritable info = true <;>
      by_cases h5 : r.force = true <;>
      by_cases h7 : isEmpty env path = true <;>
      by_cases h6 : hasExpired env info r.expungeTTL none = true <;>
      simp [h1, h4, h5, h6, h7]
  · simp

theorem not_eligible_of_prunes (r : Reaper) (env : Env) (path : String) (info : FileInfo)
    (hp : r.prunes env path info = true) : ¬ r.dirEligible env path info := by
  intro he
  unfold Reaper.dirEligible at he
  unfold Reaper.prunes at hp
  simp [he.1, he.2.1] at hp

/-- One call of the callback when the stop signal has not fired, `isProtected`
returns and an eligible entry is received: a directory to prune gives
`filepath.SkipDir` and no entry, anything else gives nil and the entry if it
is eligible in the surroundings of the call. -/
theorem walkFn_undisturbed (r : Reaper) (sched : Nat → Moment) (path : String)
    (info : FileInfo) (err : Option GoError) (k : Nat) (out : List Entry) (b : Bool)
    (hstop : (sched k).stopClosed = false)
    (hret : r.isProtected (sched k).env path = .ok b)
    (hsel : r.eligible (sched k).env path info = true → (sched k).sel = .send) :
    r.walkFn sched path (some info) err (k, out) =
      .ok (if info.IsDir && r.prunes (sched k).env path info then some .SkipDir else none,
        (k + 1, out ++
          (if r.eligible (sched k).env path info then [⟨info, path⟩] else []))) := by
  have hwalk : Reaper.walk { r with stopClosed := false } (sched k).env (sched k).sel path
      (some info) err =
      if info.IsDir then r.visitDir (sched k).env (sched k).sel path info err
      else r.visitFile (sched k).env (sched k).sel path info err := by
    simp only [Reaper.walk, Bool.false_eq_true, if_false]
    rfl
  simp only [Reaper.walkFn, hstop, hwalk]
  cases hd : info.IsDir
  · simp only [Bool.false_eq_true, if_false, Bool.false_and,
      visitFile_cases r (sched k).env (sched k).sel path info err b hret]
    by_cases he : r.fileEligible (sched k).env path info
    · have hs : (sched k).sel = .send := hsel (by simp [Reaper.eligible, hd, he])
      simp [Reaper.eligible, hd, he, hs, accept]
    · simp [Reaper.eligible, hd, he]
  · simp only [if_true, Bool.true_and,
      visitDir_cases r (sched k).env (sched k).sel path info err b hret]
    by_cases hp : r.prunes (sched k).env path info = true
    · have hne := not_eligible_of_prunes r (sched k).env path info hp
      simp [hp, Reaper.eligible, hd, hne]
    · by_cases he : r.dirEligible (sched k).env path info
      · have hs : (sched k).sel = .send := hsel (by simp [Reaper.eligible, hd, he])
        simp [hp, Reaper.eligible, hd, he, hs, accept]
      · simp [hp, Reaper.eligible, hd, he]

theorem undisturbed_cons (r : Reaper) (sched : Nat → Moment) (k : Nat) (path : String)
    (info : FileInfo) (rest : List (String × Option FileInfo))
    (h : r.undisturbed sched k ((path, some info) :: rest) = true) :
    (sched k).stopClosed = false ∧
    (∃ b, r.isProtected (sched k).env path = .ok b) ∧
    (r.eligible (sched k).env path info = true → (sched k).sel = .send) ∧
    r.undisturbed sched (k + 1) rest = true := by
  simp only [Reaper.undisturbed, Bool.and_eq_true, Bool.not_eq_true', Bool.or_eq_true,
    decide_eq_true_eq] at h
  obtain ⟨⟨⟨h1, h2⟩, h3⟩, h4⟩ := h
  refine ⟨h1, ?_, ?_, h4⟩
  · rcases hb : r.isProtected (sched k).env path with e | b
    · rw [hb] at h2
      simp at h2
    · exact ⟨b, rfl⟩
  · intro he
    rcases h3 with h3 | h3
    · rw [he] at h3
      simp at h3
    · exact h3

mutual
theorem walkNode_run (r : Reaper) (sched : Nat → Moment) :
    ∀ (n : Node) (path : String) (info : FileInfo) (k : Nat) (out : List Entry),
      (∃ name readErr children, n = .node name (.ok info) readErr children) →
      r.undisturbed sched k (r.listing sched path k (Node.listed n)) = true →
      walkNode (r.walkFn sched) path info n (k, out) =
        .ok (if info.IsDir && r.prunes (sched k).env path info then some .SkipDir else none,
          (k + (r.listing sched path k (Node.listed n)).length,
            out ++ r.chosen sched k (r.listing sched path k (Node.listed n))))
  | .node name l readErr children, path, info, k, out, hn, hu => by
    obtain ⟨name1, readErr1, children1, heq⟩ := hn
    cases heq
    rw [Node.listed, Reaper.listing] at hu ⊢
    obtain ⟨hstop, ⟨b, hb⟩, hsel, hrest⟩ := undisturbed_cons r sched k path info _ hu
    rw [walkNode]
    cases hd : info.IsDir
    · simp [walkFn_undisturbed r sched path info none k out b hstop hb hsel, hd,
        Reaper.chosen]
    · simp only [hd, Bool.not_true, Bool.false_eq_true, if_false,
        walkFn_undisturbed r sched path info readErr k out b hstop hb hsel, Bool.true_and]
        at hrest ⊢
      by_cases hp : r.prunes (sched k).env path info = true
      · simp [hp, Reaper.chosen]
      · have hp1 : r.prunes (sched k).env path info = false := by simpa using hp
        simp only [hp1, Bool.false_eq_true, if_false, Option.isSome_none, Bool.or_false,
          Bool.not_false, if_true] at hrest ⊢
        by_cases hre : readErr.isSome = true
        · simp [hre, Reaper.listingList, Reaper.chosen]
        · have hre1 : readErr.isSome = false := by simpa using hre
          simp only [hre1, Bool.false_eq_true, if_false] at hrest ⊢
          rw [walkChildren_run r sched children path (k + 1) _ hrest]
          simp only [Reaper.chosen, List.length_cons, List.append_assoc]
          rw [show k + 1 + (r.listingList sched path (k + 1)
              (Node.listedList children)).length =
            k + ((r.listingList sched path (k + 1) (Node.listedList children)).length + 1)
            by omega]
theorem walkChildren_run (r : Reaper) (sched : Nat → Moment) :
    ∀ (l : List Node) (path : String) (k : Nat) (out : List Entry),
      r.undisturbed sched k (r.listingList sched path k (Node.listedList l)) = true →
      walkChildren (r.walkFn sched) path l (k, out) =
        .ok (none, (k + (r.listingList sched path k (Node.listedList l)).length,
          out ++ r.chosen sched k (r.listingList sched path k (Node.listedList l))))
  | [], path, k, out, _ => by
    simp [walkChildren, Node.listedList, Reaper.listingList, Reaper.chosen]
  | .node name (.error e) readErr children :: rest, path, k, out, hu => by
    rw [Node.listedList, Node.listed, Reaper.listingList, Reaper.listing] at hu
    simp [Reaper.undisturbed] at hu
  | .node name (.ok fileInfo) readErr children :: rest, path, k, out, hu => by
    have hl : Node.listedList (.node name (.ok fileInfo) readErr children :: rest) =
        .node name (.ok fileInfo) readErr
          (if readErr.isSome then [] else Node.listedList children) ::
          Node.listedList rest := by
      rw [Node.listedList, Node.listed]
    have hn : Node.listed (.node name (.ok fileInfo) readErr children) =
        .node name (.ok fileInfo) readErr
          (if readErr.isSome then [] else Node.listedList children) := by
      rw [Node.listed]
    rw [hl, Reaper.listingList, ← hn] at hu ⊢
    rw [undisturbed_append, Bool.and_eq_true] at hu
    obtain ⟨hu1, hu2⟩ := hu
    rw [walkChildren,
      walkNode_run r sched (.node name (.ok fileInfo) readErr children) (Join path name)
        fileInfo k out ⟨name, readErr, children, rfl⟩ hu1]
    simp only
    have hcont : ((if (fileInfo.IsDir &&
          r.prunes (sched k).env (Join path name) fileInfo) = true
          then some GoError.SkipDir else none).isSome &&
        (!fileInfo.IsDir ||
          (if (fileInfo.IsDir && r.prunes (sched k).env (Join path name) fileInfo) = true
            then some GoError.SkipDir else none) != some GoError.SkipDir)) = false := by
      cases fileInfo.IsDir <;> cases r.prunes (sched k).env (Join path name) fileInfo <;>
        simp
    rw [hcont]
    simp only [Bool.false_eq_true, if_false]
    rw [walkChildren_run r sched rest path _ _ hu2, chosen_append, List.length_append,
      List.append_assoc, Nat.add_assoc]
end

/-- C13, as stated, fails: in the tree `lockedFullTree` the file
`tmp/locked/old_content` is in the pre-order listing, under a directory that is
neither protected nor on another device, and it is eligible; the scan delivers
nothing, because the tree walk cannot list `tmp/locked`. -/
theorem unreadable_subtree_not_delivered :
    sampleReaper.expected (still sampleEnv) "tmp" lockedFullTree =
      [⟨sampleFile, "tmp/locked/old_content"⟩] ∧
    (sampleReaper.produce (still sampleEnv) "tmp" lockedFullTree).map (fun p => p.2) =
      .ok [] := by
  decide

/-- C13, amended: when the visits of the scan go undisturbed (at each visit
the stop signal has not fired, the entry could be stat'ed, `isProtected`
returns on its path, and the consumer receives the entry if it is eligible),
the producer ends without a fault and has delivered exactly the depth-first
pre-order listing of the tree as far as it can be listed, with what lies below
protected and cross-device directories left out, filtered by the eligibility
rule of `visitDir` and `visitFile`, each entry judged in the surroundings of
its own visit; on the tree of the integration test, with an expiry of 5 s,
that is `old_empty` and then `old_with_young_content/old_content`, followed by
the closing of `results` with a nil terminal error. -/
theorem scan_delivers_preorder (r : Reaper) (sched : Nat → Moment) (root : String)
    (tree : Node)
    (hu : r.undisturbed sched 0 (r.listing sched root 0 (Node.listed tree)) = true) :
    (r.produce sched root tree).map (fun p => p.2) =
      .ok (r.expected sched root (Node.listed tree)) ∧
    (e2eReaper.produce (still (envOf (10 * 10 ^ 9) "tmp" e2eTree)) "tmp" e2eTree).map
        (fun p => (p.1.Err, p.1.resultsClosed, p.2)) =
      .ok (none, true, [⟨e2eDir "old_empty" 0, "tmp/old_empty"⟩,
        ⟨e2eFile "old_content" 0, "tmp/old_with_young_content/old_content"⟩]) := by
  refine ⟨?_, by decide⟩
  obtain ⟨name, l, readErr, children⟩ := tree
  cases l with
  | error e =>
    rw [Node.listed, Reaper.listing] at hu
    simp [Reaper.undisturbed] at hu
  | ok info =>
    have hrun := walkNode_run r sched (.node name (.ok info) readErr children) root info 0 []
      ⟨name, readErr, children, rfl⟩ hu
    have hW : ∃ k1, Walk (r.walkFn sched) root (.node name (.ok info) readErr children)
        (0, []) = .ok (none, (k1, r.expected sched root
          (Node.listed (.node name (.ok info) readErr children)))) := by
      refine ⟨0 + (r.listing sched root 0
        (Node.listed (.node name (.ok info) readErr children))).length, ?_⟩
      simp only [Walk, walkRoot, hrun, Reaper.expected, List.nil_append]
      cases info.IsDir <;> cases r.prunes (sched 0).env root info <;> simp
    obtain ⟨k1, hk1⟩ := hW
    simp [Reaper.produce, hk1, Except.map]

theorem scan_delivers_preorder_witness :
    e2eReaper.undisturbed ticking 0
      (e2eReaper.listing ticking "tmp" 0 (Node.listed e2eTree)) = true ∧
    (e2eReaper.produce ticking "tmp" e2eTree).map (fun p => p.2) =
      .ok [⟨e2eFile "old_content" 0, "tmp/old_with_young_content/old_content"⟩] :=
  ⟨by decide,
    (scan_delivers_preorder e2eReaper ticking "tmp" e2eTree (by decide)).1.trans
      (by decide)⟩

end reaper
